import Mathlib

/-!
Verification of the shearing-sheet boundary-remap engine of hgb.c
(Athena-Cversion).  The definitions below are a shallow embedding of the
C source: the C floating type `Real` (double) becomes `ℚ` so that every
definition stays computable and all arithmetic is exact, C arrays become
functions out of `ℤ`, and in-place array writes become `Function.update`
folded over the loop's iteration list.
-/

/-- Modelled from the spec: the `SIGN` macro of `defs.h` (not under `src/`):
the sign of its argument.  Everywhere it is used in `hgb.c` the argument is
guarded to be nonzero, so the value at `0` is irrelevant. -/
def SIGN (a : ℚ) : ℚ := if a < 0 then -1 else 1

/-- Modelled from the spec: the `SQR` macro of `defs.h` (not under `src/`):
the square of its argument. -/
def SQR (a : ℚ) : ℚ := a * a

/-- Modelled from the spec: the `TWO_3RDS` constant of `defs.h` (not under
`src/`), the factor `2/3` used in the parabolic flux integration. -/
def TWO_3RDS : ℚ := 2 / 3

/-- Modelled from the spec: the `ConservedState` record (`Gas` struct of
`athena.h`, not under `src/`): mass density, three momentum components and
total energy.  We model the ADIABATIC hydrodynamic configuration with
`NSCALARS = 0` (`NVAR = 5`), the configuration in which `hgb.c` compiles
(the passive-scalar path of `shear_ix1_ox1` contains a malformed member
access, see claim C9). -/
structure Gas where
  d : ℚ
  M1 : ℚ
  M2 : ℚ
  M3 : ℚ
  E : ℚ
deriving DecidableEq

/-- Componentwise difference of two conserved states, as performed by the
per-component arithmetic of `shear_ix1_ox1`. -/
def gasSub (a b : Gas) : Gas :=
  ⟨a.d - b.d, a.M1 - b.M1, a.M2 - b.M2, a.M3 - b.M3, a.E - b.E⟩

/-- Componentwise scaling of a conserved state (used only to state the
uniform-pencil property `Flux = eps * v`). -/
def gasScale (e : ℚ) (g : Gas) : Gas :=
  ⟨e * g.d, e * g.M1, e * g.M2, e * g.M3, e * g.E⟩

/-- The all-zero conserved state. -/
def gasZero : Gas := ⟨0, 0, 0, 0, 0⟩

/-- A C loop that writes `val i` into array slot `tgt i` for each iteration
`i` of the list, in order.  The array is modelled as a total function. -/
def writeAll {ι α β : Type} [DecidableEq α] (tgt : ι → α) (val : ι → β) :
    List ι → (α → β) → α → β
  | [], f => f
  | p :: l, f => writeAll tgt val l (Function.update f (tgt p) (val p))

theorem writeAll_ne {ι α β : Type} [DecidableEq α] (tgt : ι → α) (val : ι → β)
    (l : List ι) (f : α → β) (x : α) (h : ∀ p ∈ l, tgt p ≠ x) :
    writeAll tgt val l f x = f x := by
  induction l generalizing f with
  | nil => rfl
  | cons a l ih =>
    rw [writeAll, ih _ (fun p hp => h p (List.mem_cons_of_mem a hp))]
    exact Function.update_noteq (Ne.symm (h a (List.mem_cons_self a l))) _ _

theorem writeAll_mem {ι α β : Type} [DecidableEq α] {tgt : ι → α} (val : ι → β)
    (hinj : Function.Injective tgt) {l : List ι} {p : ι} (hp : p ∈ l)
    (f : α → β) : writeAll tgt val l f (tgt p) = val p := by
  induction l generalizing f with
  | nil => cases hp
  | cons a l ih =>
    by_cases hpl : p ∈ l
    · rw [writeAll]
      exact ih hpl _
    · have hpa : p = a := by
        rcases List.mem_cons.mp hp with h | h
        · exact h
        · exact absurd h hpl
      subst hpa
      rw [writeAll, writeAll_ne]
      · exact Function.update_same _ _ _
      · intro q hq hqp
        exact hpl (hinj hqp ▸ hq)

/-- The (inclusive) integer iteration range of a C `for` loop:
`for (i = lo; i <= hi; i++)`. -/
def intRange (lo hi : ℤ) : List ℤ :=
  (List.range (hi + 1 - lo).toNat).map (fun n : ℕ => lo + (n : ℤ))

theorem mem_intRange {lo hi x : ℤ} : x ∈ intRange lo hi ↔ lo ≤ x ∧ x ≤ hi := by
  simp only [intRange, List.mem_map, List.mem_range]
  constructor
  · rintro ⟨n, hn, rfl⟩
    omega
  · rintro ⟨h1, h2⟩
    exact ⟨(x - lo).toNat, by omega, by omega⟩

theorem foldl_preserve {γ St β : Type} (f : St → γ → St) (x : St → β)
    (h : ∀ s k, x (f s k) = x s) :
    ∀ (l : List γ) (σ : St), x (l.foldl f σ) = x σ := by
  intro l
  induction l with
  | nil => intro σ; rfl
  | cons a l ih => intro σ; rw [List.foldl_cons, ih, h]

/-- Step 2-3 of the SECOND_ORDER `CompRemapFlux` (hgb.c): the van Leer
limited slope `dUm` of one component of cell `i`, computed from the
neighbour values `um = U[i-1]`, `u0 = U[i]`, `up = U[i+1]`:
`dUc = U[i+1]-U[i-1]`, `dUl = U[i]-U[i-1]`, `dUr = U[i+1]-U[i]`;
zero when `dUl*dUr <= 0`, else `SIGN(dUc)*MIN(0.5*|dUc|, 2*MIN(|dUl|,|dUr|))`. -/
def dUmVL (um u0 up : ℚ) : ℚ :=
  if (u0 - um) * (up - u0) > 0 then
    SIGN (up - um) * min (0.5 * |up - um|) (2 * min |u0 - um| |up - u0|)
  else 0

/-- Step 4 of the SECOND_ORDER `CompRemapFlux`: the flux value produced by
the iteration for cell `i` (stored at `Flux[i+1]` when `eps > 0`, at
`Flux[i]` otherwise). -/
def fluxVal2 (U : ℤ → ℚ) (eps : ℚ) (i : ℤ) : ℚ :=
  if eps > 0 then
    eps * (U i + 0.5 * (1 - eps) * dUmVL (U (i-1)) (U i) (U (i+1)))
  else
    eps * (U i - 0.5 * (1 + eps) * dUmVL (U (i-1)) (U i) (U (i+1)))

/-- The flux-array write loop shared by both `CompRemapFlux` variants:
iterate `i` over `[il-1, iu+1]`; when `eps > 0` store the cell value at
`Flux[i+1]`, otherwise at `Flux[i]`.  `F0` is the prior content of the
static scratch array `Flx`. -/
def remapLoop (eps : ℚ) (il iu : ℤ) (val : ℤ → ℚ) (F0 : ℤ → ℚ) : ℤ → ℚ :=
  writeAll (fun i => if eps > 0 then i + 1 else i) val (intRange (il-1) (iu+1)) F0

/-- One component of the SECOND_ORDER `CompRemapFlux(U, eps, il, iu, Flux)`. -/
def CompRemapFlux2 (U : ℤ → ℚ) (eps : ℚ) (il iu : ℤ) (F0 : ℤ → ℚ) : ℤ → ℚ :=
  remapLoop eps il iu (fluxVal2 U eps) F0

/-- The SECOND_ORDER `CompRemapFlux` on full conserved-state pencils.  The C
kernel casts the `Gas` struct to a `Real[NVAR]` array and runs the identical
scalar computation on each component in an inner `n`-loop, so the struct
result is the scalar kernel applied componentwise. -/
def CompRemapFluxGas2 (U : ℤ → Gas) (eps : ℚ) (il iu : ℤ) (F0 : ℤ → Gas)
    (j : ℤ) : Gas :=
  { d  := CompRemapFlux2 (fun i => (U i).d)  eps il iu (fun i => (F0 i).d)  j
    M1 := CompRemapFlux2 (fun i => (U i).M1) eps il iu (fun i => (F0 i).M1) j
    M2 := CompRemapFlux2 (fun i => (U i).M2) eps il iu (fun i => (F0 i).M2) j
    M3 := CompRemapFlux2 (fun i => (U i).M3) eps il iu (fun i => (F0 i).M3) j
    E  := CompRemapFlux2 (fun i => (U i).E)  eps il iu (fun i => (F0 i).E)  j }

theorem remapLoop_interface (eps : ℚ) (il iu : ℤ) (val : ℤ → ℚ) (F0 : ℤ → ℚ)
    {j : ℤ} (h1 : il ≤ j) (h2 : j ≤ iu + 1) :
    remapLoop eps il iu val F0 j = val (if eps > 0 then j - 1 else j) := by
  unfold remapLoop
  by_cases he : eps > 0
  · have hinj : Function.Injective (fun i : ℤ => if eps > 0 then i + 1 else i) := by
      intro a b hab
      simp only [if_pos he] at hab
      omega
    have hmem : j - 1 ∈ intRange (il-1) (iu+1) := mem_intRange.mpr ⟨by omega, by omega⟩
    have := writeAll_mem val hinj hmem F0
    simp only [if_pos he] at this ⊢
    rw [show j - 1 + 1 = j by ring] at this
    exact this
  · have hinj : Function.Injective (fun i : ℤ => if eps > 0 then i + 1 else i) := by
      intro a b hab
      simp only [if_neg he] at hab
      omega
    have hmem : j ∈ intRange (il-1) (iu+1) := mem_intRange.mpr ⟨by omega, by omega⟩
    have := writeAll_mem val hinj hmem F0
    simp only [if_neg he] at this ⊢
    exact this

/-- Step 2 of the THIRD_ORDER `CompRemapFlux` (hgb.c): the curvature limiter
applied to the initial interface estimate; `dc`, `dl`, `dr` are the
centered, left and right second differences.  The two sequential `if`
statements of the C code have mutually exclusive conditions. -/
def d2limCS (dc dl dr : ℚ) : ℚ :=
  if dc > 0 ∧ dl > 0 ∧ dr > 0 then SIGN dc * min (1.25 * min |dl| |dr|) |dc|
  else if dc < 0 ∧ dl < 0 ∧ dr < 0 then SIGN dc * min (1.25 * min |dl| |dr|) |dc|
  else 0

/-- Step 2 of the THIRD_ORDER `CompRemapFlux`: the limited interface value
`Uhalf[i]` (the value at interface `i-1/2`), one component.  The 4-point
estimate `(7*(U[i-1]+U[i]) - (U[i-2]+U[i+1]))/12` is corrected by the
curvature limiter. -/
def Uhalf3 (U : ℤ → ℚ) (i : ℤ) : ℚ :=
  let Uh := (7 * (U (i-1) + U i) - (U (i-2) + U (i+1))) / 12
  let d2Ulim := d2limCS (3 * (U (i-1) - 2 * Uh + U i))
      (U (i-2) - 2 * U (i-1) + U i) (U (i-1) - 2 * U i + U (i+1))
  0.5 * ((U (i-1) + U i) - d2Ulim / 3)

/-- Step 4 of the THIRD_ORDER `CompRemapFlux`: the extremum-preserving
correction of the edge pair `(Ulv, Urv)` of cell `i` (`um2..up2` are
`U[i-2]..U[i+2]`), entered when the edges do not bracket the cell value and
the neighbours indicate an extremum. -/
def edgesStep4 (um2 um1 u up1 up2 Ulv Urv : ℚ) : ℚ × ℚ :=
  if (Urv - u) * (u - Ulv) ≤ 0 ∧ (um1 - u) * (u - up1) ≤ 0 then
    let d2U := -2 * (6 * (u - 0.5 * (Ulv + Urv)))
    let d2Uc := um1 - 2 * u + up1
    let d2Ul := um2 - 2 * um1 + u
    let d2Ur := u - 2 * up1 + up2
    let ls := min |d2Uc| (min |d2Ul| |d2Ur|)
    let d2Ulim :=
      if d2Uc > 0 ∧ d2Ul > 0 ∧ d2Ur > 0 ∧ d2U > 0 then
        SIGN d2U * min (1.25 * ls) |d2U|
      else if d2Uc < 0 ∧ d2Ul < 0 ∧ d2Ur < 0 ∧ d2U < 0 then
        SIGN d2U * min (1.25 * ls) |d2U|
      else 0
    if d2U = 0 then (u, u)
    else (u + (Ulv - u) * d2Ulim / d2U, u + (Urv - u) * d2Ulim / d2U)
  else (Ulv, Urv)

/-- Step 5 of the THIRD_ORDER `CompRemapFlux`: the classical monotonicity
correction (CW eqn 1.10) of the edge pair of cell value `u`. -/
def edgesStep5 (u : ℚ) (e : ℚ × ℚ) : ℚ × ℚ :=
  let Ulv := e.1
  let Urv := e.2
  let qa := (Urv - u) * (u - Ulv)
  let qb := Urv - Ulv
  let qc := 6 * (u - 0.5 * (Ulv + Urv))
  if qa ≤ 0 then (u, u)
  else if qb * qc > qb * qb then (3 * u - 2 * Urv, Urv)
  else if qb * qc < -(qb * qb) then (Ulv, 3 * u - 2 * Ulv)
  else (Ulv, Urv)

/-- Steps 3-5 of the THIRD_ORDER `CompRemapFlux`: the final left/right edge
values `(Ulv, Urv)` of cell `i`, one component. -/
def edges3 (U : ℤ → ℚ) (i : ℤ) : ℚ × ℚ :=
  edgesStep5 (U i)
    (edgesStep4 (U (i-2)) (U (i-1)) (U i) (U (i+1)) (U (i+2))
      (Uhalf3 U i) (Uhalf3 U (i+1)))

/-- Steps 6-7 of the THIRD_ORDER `CompRemapFlux`: the parabola coefficients
`dU`, `U6` and the analytic integral over the fractional shift `eps`
(stored at `Flux[i+1]` when `eps > 0`, at `Flux[i]` otherwise). -/
def fluxVal3 (U : ℤ → ℚ) (eps : ℚ) (i : ℤ) : ℚ :=
  let e := edges3 U i
  let dU := e.2 - e.1
  let U6 := 6 * (U i - 0.5 * (e.1 + e.2))
  if eps > 0 then
    let qx := TWO_3RDS * eps
    eps * (e.2 - 0.75 * qx * (dU - (1 - qx) * U6))
  else
    let qx := -TWO_3RDS * eps
    eps * (e.1 + 0.75 * qx * (dU + (1 - qx) * U6))

/-- One component of the THIRD_ORDER `CompRemapFlux(U, eps, il, iu, Flux)`. -/
def CompRemapFlux3 (U : ℤ → ℚ) (eps : ℚ) (il iu : ℤ) (F0 : ℤ → ℚ) : ℤ → ℚ :=
  remapLoop eps il iu (fluxVal3 U eps) F0

/-- The THIRD_ORDER `CompRemapFlux` on full conserved-state pencils,
componentwise exactly as in `CompRemapFluxGas2`. -/
def CompRemapFluxGas3 (U : ℤ → Gas) (eps : ℚ) (il iu : ℤ) (F0 : ℤ → Gas)
    (j : ℤ) : Gas :=
  { d  := CompRemapFlux3 (fun i => (U i).d)  eps il iu (fun i => (F0 i).d)  j
    M1 := CompRemapFlux3 (fun i => (U i).M1) eps il iu (fun i => (F0 i).M1) j
    M2 := CompRemapFlux3 (fun i => (U i).M2) eps il iu (fun i => (F0 i).M2) j
    M3 := CompRemapFlux3 (fun i => (U i).M3) eps il iu (fun i => (F0 i).M3) j
    E  := CompRemapFlux3 (fun i => (U i).E)  eps il iu (fun i => (F0 i).E)  j }

theorem dUmVL_self (c : ℚ) : dUmVL c c c = 0 := by
  simp [dUmVL]

theorem fluxVal2_const (U : ℤ → ℚ) (c eps : ℚ) (hU : ∀ a, U a = c) (i : ℤ) :
    fluxVal2 U eps i = eps * c := by
  simp [fluxVal2, hU, dUmVL_self]

theorem CompRemapFlux2_const (U : ℤ → ℚ) (c eps : ℚ) (hU : ∀ a, U a = c)
    (il iu : ℤ) (F0 : ℤ → ℚ) {j : ℤ} (h1 : il ≤ j) (h2 : j ≤ iu + 1) :
    CompRemapFlux2 U eps il iu F0 j = eps * c := by
  unfold CompRemapFlux2
  rw [remapLoop_interface eps il iu _ F0 h1 h2, fluxVal2_const U c eps hU]

theorem d2limCS_zero : d2limCS 0 0 0 = 0 := by
  norm_num [d2limCS]

theorem Uhalf3_const (U : ℤ → ℚ) (c : ℚ) (hU : ∀ a, U a = c) (i : ℤ) :
    Uhalf3 U i = c := by
  simp only [Uhalf3, hU]
  rw [show (7 * (c + c) - (c + c)) / 12 = c by ring]
  rw [show 3 * (c - 2 * c + c) = (0:ℚ) by ring]
  rw [show c - 2 * c + c = (0:ℚ) by ring]
  rw [d2limCS_zero]
  ring

theorem edgesStep4_const (c : ℚ) : edgesStep4 c c c c c c c = (c, c) := by
  simp only [edgesStep4]
  rw [if_pos ⟨by nlinarith, by nlinarith⟩]
  have hz : -2 * (6 * (c - 0.5 * (c + c))) = (0:ℚ) := by ring
  simp [hz]

theorem edgesStep5_const (c : ℚ) : edgesStep5 c (c, c) = (c, c) := by
  simp only [edgesStep5]
  rw [if_pos (by nlinarith)]

theorem edges3_const (U : ℤ → ℚ) (c : ℚ) (hU : ∀ a, U a = c) (i : ℤ) :
    edges3 U i = (c, c) := by
  simp only [edges3, hU, Uhalf3_const U c hU]
  rw [edgesStep4_const, edgesStep5_const]

theorem fluxVal3_const (U : ℤ → ℚ) (c eps : ℚ) (hU : ∀ a, U a = c) (i : ℤ) :
    fluxVal3 U eps i = eps * c := by
  simp only [fluxVal3, edges3_const U c hU, hU, TWO_3RDS]
  split_ifs <;> ring

theorem CompRemapFlux3_const (U : ℤ → ℚ) (c eps : ℚ) (hU : ∀ a, U a = c)
    (il iu : ℤ) (F0 : ℤ → ℚ) {j : ℤ} (h1 : il ≤ j) (h2 : j ≤ iu + 1) :
    CompRemapFlux3 U eps il iu F0 j = eps * c := by
  unfold CompRemapFlux3
  rw [remapLoop_interface eps il iu _ F0 h1 h2, fluxVal3_const U c eps hU]

theorem fluxVal2_zero (U : ℤ → ℚ) (i : ℤ) : fluxVal2 U 0 i = 0 := by
  simp [fluxVal2]

theorem fluxVal3_zero (U : ℤ → ℚ) (i : ℤ) : fluxVal3 U 0 i = 0 := by
  simp [fluxVal3]

theorem CompRemapFlux2_zero (U : ℤ → ℚ) (il iu : ℤ) (F0 : ℤ → ℚ) {j : ℤ}
    (h1 : il ≤ j) (h2 : j ≤ iu + 1) : CompRemapFlux2 U 0 il iu F0 j = 0 := by
  unfold CompRemapFlux2
  rw [remapLoop_interface 0 il iu _ F0 h1 h2, fluxVal2_zero]

theorem CompRemapFlux3_zero (U : ℤ → ℚ) (il iu : ℤ) (F0 : ℤ → ℚ) {j : ℤ}
    (h1 : il ≤ j) (h2 : j ≤ iu + 1) : CompRemapFlux3 U 0 il iu F0 j = 0 := by
  unfold CompRemapFlux3
  rw [remapLoop_interface 0 il iu _ F0 h1 h2, fluxVal3_zero]

/-- Claim C1: for every fractional shift `eps` in `(-1,1)` and every uniform
input pencil (all cells holding the same `ConservedState` value `v`),
`CompRemapFlux` (either reconstruction variant) returns a flux pencil with
`Flux[j] = eps * v`, componentwise, at every interface `j` in `[il, iu+1]`. -/
theorem uniform_pencil_flux_eq_eps_smul (v : Gas) (eps : ℚ) (il iu j : ℤ)
    (F2 F3 : ℤ → Gas) (heps1 : -1 < eps) (heps2 : eps < 1)
    (hj1 : il ≤ j) (hj2 : j ≤ iu + 1) :
    CompRemapFluxGas2 (fun _ => v) eps il iu F2 j = gasScale eps v ∧
    CompRemapFluxGas3 (fun _ => v) eps il iu F3 j = gasScale eps v := by
  constructor
  · simp only [CompRemapFluxGas2, gasScale, Gas.mk.injEq]
    exact ⟨CompRemapFlux2_const _ _ _ (fun a => rfl) il iu _ hj1 hj2,
           CompRemapFlux2_const _ _ _ (fun a => rfl) il iu _ hj1 hj2,
           CompRemapFlux2_const _ _ _ (fun a => rfl) il iu _ hj1 hj2,
           CompRemapFlux2_const _ _ _ (fun a => rfl) il iu _ hj1 hj2,
           CompRemapFlux2_const _ _ _ (fun a => rfl) il iu _ hj1 hj2⟩
  · simp only [CompRemapFluxGas3, gasScale, Gas.mk.injEq]
    exact ⟨CompRemapFlux3_const _ _ _ (fun a => rfl) il iu _ hj1 hj2,
           CompRemapFlux3_const _ _ _ (fun a => rfl) il iu _ hj1 hj2,
           CompRemapFlux3_const _ _ _ (fun a => rfl) il iu _ hj1 hj2,
           CompRemapFlux3_const _ _ _ (fun a => rfl) il iu _ hj1 hj2,
           CompRemapFlux3_const _ _ _ (fun a => rfl) il iu _ hj1 hj2⟩

/-- Witness for claim C1 at a concrete uniform pencil and shift. -/
theorem uniform_pencil_flux_eq_eps_smul_witness :
    (-1 : ℚ) < 1/2 ∧ (1/2 : ℚ) < 1 ∧ (0 : ℤ) ≤ 1 ∧ (1 : ℤ) ≤ 2 + 1 ∧
    (CompRemapFluxGas2 (fun _ => (⟨1, 2, 3, 4, 5⟩ : Gas)) (1/2) 0 2
        (fun _ => gasZero) 1 = gasScale (1/2) ⟨1, 2, 3, 4, 5⟩ ∧
     CompRemapFluxGas3 (fun _ => (⟨1, 2, 3, 4, 5⟩ : Gas)) (1/2) 0 2
        (fun _ => gasZero) 1 = gasScale (1/2) ⟨1, 2, 3, 4, 5⟩) :=
  ⟨by norm_num, by norm_num, by decide, by decide,
   uniform_pencil_flux_eq_eps_smul ⟨1, 2, 3, 4, 5⟩ (1/2) 0 2 1
     (fun _ => gasZero) (fun _ => gasZero) (by norm_num) (by norm_num)
     (by decide) (by decide)⟩

/-- Claim C4: for every input pencil, calling `CompRemapFlux` with `eps = 0`
yields a flux pencil whose entries over `[il, iu+1]` are all exactly zero,
componentwise, for both reconstruction variants. -/
theorem zero_shift_flux_is_zero (U : ℤ → Gas) (il iu j : ℤ) (F2 F3 : ℤ → Gas)
    (hj1 : il ≤ j) (hj2 : j ≤ iu + 1) :
    CompRemapFluxGas2 U 0 il iu F2 j = gasZero ∧
    CompRemapFluxGas3 U 0 il iu F3 j = gasZero := by
  constructor
  · simp only [CompRemapFluxGas2, gasZero, Gas.mk.injEq]
    exact ⟨CompRemapFlux2_zero _ il iu _ hj1 hj2, CompRemapFlux2_zero _ il iu _ hj1 hj2,
           CompRemapFlux2_zero _ il iu _ hj1 hj2, CompRemapFlux2_zero _ il iu _ hj1 hj2,
           CompRemapFlux2_zero _ il iu _ hj1 hj2⟩
  · simp only [CompRemapFluxGas3, gasZero, Gas.mk.injEq]
    exact ⟨CompRemapFlux3_zero _ il iu _ hj1 hj2, CompRemapFlux3_zero _ il iu _ hj1 hj2,
           CompRemapFlux3_zero _ il iu _ hj1 hj2, CompRemapFlux3_zero _ il iu _ hj1 hj2,
           CompRemapFlux3_zero _ il iu _ hj1 hj2⟩

/-- Witness for claim C4 at a concrete non-uniform pencil. -/
theorem zero_shift_flux_is_zero_witness :
    (0 : ℤ) ≤ 1 ∧ (1 : ℤ) ≤ 2 + 1 ∧
    (CompRemapFluxGas2 (fun i => ⟨(i : ℚ), 2 * i, 0, 1, (i : ℚ) * i⟩) 0 0 2
        (fun _ => gasZero) 1 = gasZero ∧
     CompRemapFluxGas3 (fun i => ⟨(i : ℚ), 2 * i, 0, 1, (i : ℚ) * i⟩) 0 0 2
        (fun _ => gasZero) 1 = gasZero) :=
  ⟨by decide, by decide,
   zero_shift_flux_is_zero (fun i => ⟨(i : ℚ), 2 * i, 0, 1, (i : ℚ) * i⟩) 0 2 1
     (fun _ => gasZero) (fun _ => gasZero) (by decide) (by decide)⟩

theorem dUmVL_mono_inc {um u0 up : ℚ} (h1 : um ≤ u0) (h2 : u0 ≤ up) :
    0 ≤ dUmVL um u0 up ∧ dUmVL um u0 up / 2 ≤ u0 - um ∧
    dUmVL um u0 up / 2 ≤ up - u0 := by
  unfold dUmVL
  by_cases hc : (u0 - um) * (up - u0) > 0
  · rw [if_pos hc]
    have hl : 0 < u0 - um := by nlinarith
    have hr : 0 < up - u0 := by nlinarith
    have hs : SIGN (up - um) = 1 := by
      unfold SIGN
      rw [if_neg (by linarith)]
    rw [hs, one_mul, abs_of_pos (by linarith : (0:ℚ) < up - um),
        abs_of_pos hl, abs_of_pos hr]
    have hm1 := min_le_right (0.5 * (up - um)) (2 * min (u0 - um) (up - u0))
    have hm2 := min_le_left (u0 - um) (up - u0)
    have hm3 := min_le_right (u0 - um) (up - u0)
    have hmin : (0:ℚ) ≤ min (u0 - um) (up - u0) := le_min hl.le hr.le
    refine ⟨le_min (by nlinarith) (by nlinarith), by nlinarith, by nlinarith⟩
  · rw [if_neg hc]
    refine ⟨le_refl 0, by simp; linarith, by simp; linarith⟩

theorem dUmVL_mono_dec {um u0 up : ℚ} (h1 : up ≤ u0) (h2 : u0 ≤ um) :
    dUmVL um u0 up ≤ 0 ∧ u0 - um ≤ dUmVL um u0 up / 2 ∧
    up - u0 ≤ dUmVL um u0 up / 2 := by
  unfold dUmVL
  by_cases hc : (u0 - um) * (up - u0) > 0
  · rw [if_pos hc]
    have hl : u0 - um < 0 := by nlinarith
    have hr : up - u0 < 0 := by nlinarith
    have hs : SIGN (up - um) = -1 := by
      unfold SIGN
      rw [if_pos (by linarith)]
    rw [hs, abs_of_neg (by linarith : up - um < 0), abs_of_neg hl, abs_of_neg hr]
    have hm1 := min_le_right (0.5 * -(up - um)) (2 * min (-(u0 - um)) (-(up - u0)))
    have hm2 := min_le_left (-(u0 - um)) (-(up - u0))
    have hm3 := min_le_right (-(u0 - um)) (-(up - u0))
    have hmin : (0:ℚ) ≤ min (-(u0 - um)) (-(up - u0)) :=
      le_min (by linarith) (by linarith)
    have hmin0 : 0 ≤ min (0.5 * -(up - um)) (2 * min (-(u0 - um)) (-(up - u0))) :=
      le_min (by nlinarith) (by nlinarith)
    refine ⟨by nlinarith, by nlinarith, by nlinarith⟩
  · rw [if_neg hc]
    refine ⟨le_refl 0, by simp; linarith, by simp; linarith⟩

/-- Claim C8: for an input pencil monotone over the stencil of interior cell
`i` (non-decreasing or non-increasing across `U[i-1], U[i], U[i+1]`), the
SECOND_ORDER limited slope `dUm` yields edge values `U[i] - dUm/2` and
`U[i] + dUm/2` that stay between the neighbouring cell averages `U[i-1]`
and `U[i+1]`, so the linear reconstruction introduces no new local
extremum. -/
theorem second_order_monotone_edges_bounded (U : ℤ → ℚ) (i : ℤ)
    (hmono : (U (i-1) ≤ U i ∧ U i ≤ U (i+1)) ∨
             (U (i+1) ≤ U i ∧ U i ≤ U (i-1))) :
    min (U (i-1)) (U (i+1)) ≤ U i - dUmVL (U (i-1)) (U i) (U (i+1)) / 2 ∧
    U i - dUmVL (U (i-1)) (U i) (U (i+1)) / 2 ≤ max (U (i-1)) (U (i+1)) ∧
    min (U (i-1)) (U (i+1)) ≤ U i + dUmVL (U (i-1)) (U i) (U (i+1)) / 2 ∧
    U i + dUmVL (U (i-1)) (U i) (U (i+1)) / 2 ≤ max (U (i-1)) (U (i+1)) := by
  rcases hmono with ⟨h1, h2⟩ | ⟨h1, h2⟩
  · obtain ⟨ha, hb, hc⟩ := dUmVL_mono_inc h1 h2
    rw [min_eq_left (le_trans h1 h2), max_eq_right (le_trans h1 h2)]
    refine ⟨by linarith, by linarith, by linarith, by linarith⟩
  · obtain ⟨ha, hb, hc⟩ := dUmVL_mono_dec h1 h2
    rw [min_eq_right (le_trans h1 h2), max_eq_left (le_trans h1 h2)]
    refine ⟨by linarith, by linarith, by linarith, by linarith⟩

/-- Witness for claim C8 at the strictly increasing pencil `U n = n`, `i = 0`. -/
theorem second_order_monotone_edges_bounded_witness :
    (((fun n : ℤ => (n : ℚ)) (0-1) ≤ (fun n : ℤ => (n : ℚ)) 0 ∧
      (fun n : ℤ => (n : ℚ)) 0 ≤ (fun n : ℤ => (n : ℚ)) (0+1)) ∨
     ((fun n : ℤ => (n : ℚ)) (0+1) ≤ (fun n : ℤ => (n : ℚ)) 0 ∧
      (fun n : ℤ => (n : ℚ)) 0 ≤ (fun n : ℤ => (n : ℚ)) (0-1))) ∧
    (min ((fun n : ℤ => (n : ℚ)) (0-1)) ((fun n : ℤ => (n : ℚ)) (0+1)) ≤
      (fun n : ℤ => (n : ℚ)) 0 -
        dUmVL ((fun n : ℤ => (n : ℚ)) (0-1)) ((fun n : ℤ => (n : ℚ)) 0)
          ((fun n : ℤ => (n : ℚ)) (0+1)) / 2 ∧
     (fun n : ℤ => (n : ℚ)) 0 -
        dUmVL ((fun n : ℤ => (n : ℚ)) (0-1)) ((fun n : ℤ => (n : ℚ)) 0)
          ((fun n : ℤ => (n : ℚ)) (0+1)) / 2 ≤
      max ((fun n : ℤ => (n : ℚ)) (0-1)) ((fun n : ℤ => (n : ℚ)) (0+1)) ∧
     min ((fun n : ℤ => (n : ℚ)) (0-1)) ((fun n : ℤ => (n : ℚ)) (0+1)) ≤
      (fun n : ℤ => (n : ℚ)) 0 +
        dUmVL ((fun n : ℤ => (n : ℚ)) (0-1)) ((fun n : ℤ => (n : ℚ)) 0)
          ((fun n : ℤ => (n : ℚ)) (0+1)) / 2 ∧
     (fun n : ℤ => (n : ℚ)) 0 +
        dUmVL ((fun n : ℤ => (n : ℚ)) (0-1)) ((fun n : ℤ => (n : ℚ)) 0)
          ((fun n : ℤ => (n : ℚ)) (0+1)) / 2 ≤
      max ((fun n : ℤ => (n : ℚ)) (0-1)) ((fun n : ℤ => (n : ℚ)) (0+1))) :=
  ⟨Or.inl (by decide),
   second_order_monotone_edges_bounded (fun n : ℤ => (n : ℚ)) 0
     (Or.inl (by decide))⟩

/-- The C cast `(int)r` and the quotient implicit in `fmod`: truncation of a
real number toward zero. -/
def ctrunc (r : ℚ) : ℤ := if 0 ≤ r then ⌊r⌋ else -⌊-r⌋

/-- The C library function `fmod(x, y) = x - trunc(x/y) * y`: the remainder
has the sign of `x` (no sign correction is applied in `shear_ix1_ox1`). -/
def fmodR (x y : ℚ) : ℚ := x - y * ((ctrunc (x / y) : ℤ) : ℚ)

/-- Offset computation of `shear_ix1_ox1`, hgb.c:
`yshear = 1.5*Omega*Lx*pG->time` — the distance the domain has sheared. -/
def yshearOf (time Omega Lx : ℚ) : ℚ := 1.5 * Omega * Lx * time

/-- Offset computation of `shear_ix1_ox1`: `deltay = fmod(yshear, Ly)`. -/
def deltayOf (time Omega Lx Ly : ℚ) : ℚ := fmodR (yshearOf time Omega Lx) Ly

/-- Offset computation of `shear_ix1_ox1`:
`j_offset = (int)(deltay/pG->dx2)`. -/
def jOffsetOf (time Omega Lx Ly dx2 : ℚ) : ℤ :=
  ctrunc (deltayOf time Omega Lx Ly / dx2)

/-- Offset computation of `shear_ix1_ox1`:
`epsi = fmod(deltay, pG->dx2)/pG->dx2`. -/
def epsiOf (time Omega Lx Ly dx2 : ℚ) : ℚ :=
  fmodR (deltayOf time Omega Lx Ly) dx2 / dx2

theorem ctrunc_of_nonneg {r : ℚ} (h : 0 ≤ r) : ctrunc r = ⌊r⌋ := if_pos h

theorem ctrunc_zero : ctrunc 0 = 0 := by norm_num [ctrunc]

theorem fmodR_nonneg_lt {x y : ℚ} (hx : 0 ≤ x) (hy : 0 < y) :
    0 ≤ fmodR x y ∧ fmodR x y < y := by
  have hq : (0:ℚ) ≤ x / y := div_nonneg hx hy.le
  have hxy : y * (x / y) = x := by field_simp
  have key : fmodR x y = y * Int.fract (x / y) := by
    unfold fmodR
    rw [ctrunc_of_nonneg hq, Int.fract, mul_sub, hxy]
  constructor
  · rw [key]
    exact mul_nonneg hy.le (Int.fract_nonneg _)
  · rw [key]
    have := Int.fract_lt_one (x / y)
    nlinarith

theorem fmodR_zero_left (y : ℚ) : fmodR 0 y = 0 := by
  simp [fmodR, ctrunc]

theorem fmodR_self (y : ℚ) (hy : y ≠ 0) : fmodR y y = 0 := by
  norm_num [fmodR, ctrunc, div_self hy]

/-- Claim C5 (amended to nonnegative total shear, i.e. `time ≥ 0`): for
`Omega, Lx, Ly > 0`, `dx2 > 0` and `time ≥ 0`, the shear-offset
decomposition computed at the start of the exchange satisfies
`deltay ∈ [0, Ly)` and `epsi ∈ [0, 1)`.  (For negative total shear the C
`fmod` returns a negative remainder and the claim fails; see the
counterexample.) -/
theorem offset_decomposition_in_range (time Omega Lx Ly dx2 : ℚ)
    (ht : 0 ≤ time) (hO : 0 < Omega) (hL : 0 < Lx) (hY : 0 < Ly)
    (hd : 0 < dx2) :
    (0 ≤ deltayOf time Omega Lx Ly ∧ deltayOf time Omega Lx Ly < Ly) ∧
    (0 ≤ epsiOf time Omega Lx Ly dx2 ∧ epsiOf time Omega Lx Ly dx2 < 1) := by
  have hys : 0 ≤ yshearOf time Omega Lx := by
    unfold yshearOf
    exact mul_nonneg (mul_nonneg (mul_nonneg (by norm_num) hO.le) hL.le) ht
  obtain ⟨h1, h2⟩ : 0 ≤ deltayOf time Omega Lx Ly ∧
      deltayOf time Omega Lx Ly < Ly := fmodR_nonneg_lt hys hY
  obtain ⟨h3, h4⟩ := fmodR_nonneg_lt h1 hd
  exact ⟨⟨h1, h2⟩, div_nonneg h3 hd.le, (div_lt_one hd).mpr h4⟩

/-- Witness for claim C5 (amended) at `time = 1`, `Omega = Lx = 1`,
`Ly = 2`, `dx2 = 1`. -/
theorem offset_decomposition_in_range_witness :
    (0:ℚ) ≤ 1 ∧ (0:ℚ) < 1 ∧ (0:ℚ) < 1 ∧ (0:ℚ) < 2 ∧ (0:ℚ) < 1 ∧
    ((0 ≤ deltayOf 1 1 1 2 ∧ deltayOf 1 1 1 2 < 2) ∧
     (0 ≤ epsiOf 1 1 1 2 1 ∧ epsiOf 1 1 1 2 1 < 1)) :=
  ⟨by norm_num, by norm_num, by norm_num, by norm_num, by norm_num,
   offset_decomposition_in_range 1 1 1 2 1 (by norm_num) (by norm_num)
     (by norm_num) (by norm_num) (by norm_num)⟩

/-- Counterexample for claim C5 as stated: at `time = -1`, `Omega = Lx = 1`,
`Ly = 2`, `dx2 = 1` the total shear is `-1.5`, the C `fmod` keeps the sign
of its first argument, and the computed `deltay = -1.5` is not in `[0, 2)`
(and `epsi = -0.5` is not in `[0, 1)`). -/
theorem offset_decomposition_neg_shear_counterexample :
    ¬ ((0 ≤ deltayOf (-1) 1 1 2 ∧ deltayOf (-1) 1 1 2 < 2) ∧
       (0 ≤ epsiOf (-1) 1 1 2 1 ∧ epsiOf (-1) 1 1 2 1 < 1)) := by
  have h1 : deltayOf (-1) 1 1 2 = -3/2 := by
    norm_num [deltayOf, yshearOf, fmodR, ctrunc]
  intro h
  rw [h1] at h
  obtain ⟨⟨ha, _⟩, _⟩ := h
  norm_num at ha

/-- Claim C6: the offset computation yields integer offset `0` and
fractional offset `0` both when `time = 0` and when the total shear
`1.5*Omega*Lx*time` equals `Ly` exactly (wrapping to `{0, 0}`). -/
theorem offset_zero_time_and_full_wrap (time Omega Lx Ly dx2 : ℚ)
    (hLy : 0 < Ly) :
    (jOffsetOf 0 Omega Lx Ly dx2 = 0 ∧ epsiOf 0 Omega Lx Ly dx2 = 0) ∧
    (yshearOf time Omega Lx = Ly →
      jOffsetOf time Omega Lx Ly dx2 = 0 ∧ epsiOf time Omega Lx Ly dx2 = 0) := by
  constructor
  · have hd0 : deltayOf 0 Omega Lx Ly = 0 := by
      unfold deltayOf yshearOf
      rw [mul_zero, fmodR_zero_left]
    constructor
    · unfold jOffsetOf
      rw [hd0, zero_div, ctrunc_zero]
    · unfold epsiOf
      rw [hd0, fmodR_zero_left, zero_div]
  · intro hsh
    have hd0 : deltayOf time Omega Lx Ly = 0 := by
      unfold deltayOf
      rw [hsh, fmodR_self Ly hLy.ne']
    constructor
    · unfold jOffsetOf
      rw [hd0, zero_div, ctrunc_zero]
    · unfold epsiOf
      rw [hd0, fmodR_zero_left, zero_div]

/-- Witness for claim C6 at `Omega = Lx = 1`, `Ly = 3`, `dx2 = 1`,
`time = 2` (so the total shear is exactly `Ly`). -/
theorem offset_zero_time_and_full_wrap_witness :
    (0:ℚ) < 3 ∧
    ((jOffsetOf 0 1 1 3 1 = 0 ∧ epsiOf 0 1 1 3 1 = 0) ∧
     (yshearOf 2 1 1 = 3 →
       jOffsetOf 2 1 1 3 1 = 0 ∧ epsiOf 2 1 1 3 1 = 0)) :=
  ⟨by norm_num, offset_zero_time_and_full_wrap 2 1 1 3 1 (by norm_num)⟩

/-- Gather step of the ix1 (inbound) face of `shear_ix1_ox1` (hgb.c): copy a
source cell from the ox1 side and apply the frame boost
`M2 += 1.5*Omega*Lx*d` together with (ADIABATIC) the energy correction
`E += (0.5/d)*(SQR(M2_new) - SQR(M2_old))`. -/
def ix1Gather (Omega Lx : ℚ) (src : Gas) : Gas :=
  let M2n := src.M2 + 1.5 * Omega * Lx * src.d
  { d := src.d, M1 := src.M1, M2 := M2n, M3 := src.M3,
    E := src.E + (0.5 / src.d) * (SQR M2n - SQR src.M2) }

/-- Gather step of the ox1 (outbound) face of `shear_ix1_ox1` (hgb.c): copy a
source cell from the ix1 side and apply the frame boost
`M2 -= 1.5*Omega*Lx*d` together with (ADIABATIC) the energy correction
`E += (0.5/d)*(SQR(M2_new) - SQR(M2_old))`. -/
def ox1Gather (Omega Lx : ℚ) (src : Gas) : Gas :=
  let M2n := src.M2 - 1.5 * Omega * Lx * src.d
  { d := src.d, M1 := src.M1, M2 := M2n, M3 := src.M3,
    E := src.E + (0.5 / src.d) * (SQR M2n - SQR src.M2) }

/-- The internal energy `E - (M1^2 + M2^2 + M3^2)/(2*d)` of a conserved
state: total energy minus kinetic energy. -/
def internalEnergy (g : Gas) : ℚ :=
  g.E - (SQR g.M1 + SQR g.M2 + SQR g.M3) / (2 * g.d)

/-- Claim C2: for one offset snapshot, the momentum-boost term applied at
gather time on the inbound face (`+1.5*Omega*Lx*density` added to `M2`) and
the one applied on the outbound face (`-1.5*Omega*Lx*density`) are exact
negatives of each other for any two gathered cells with the same density. -/
theorem gather_boost_terms_antisymmetric (Omega Lx : ℚ) (a b : Gas)
    (hd : a.d = b.d) :
    (ix1Gather Omega Lx a).M2 - a.M2 = -((ox1Gather Omega Lx b).M2 - b.M2) := by
  simp only [ix1Gather, ox1Gather, hd]
  ring

/-- Witness for claim C2 at two concrete cells of equal density. -/
theorem gather_boost_terms_antisymmetric_witness :
    (Gas.d ⟨2, 1, 5, 0, 9⟩ = Gas.d ⟨2, 7, -3, 1, 4⟩) ∧
    ((ix1Gather 3 4 ⟨2, 1, 5, 0, 9⟩).M2 - (Gas.M2 ⟨2, 1, 5, 0, 9⟩) =
      -((ox1Gather 3 4 ⟨2, 7, -3, 1, 4⟩).M2 - (Gas.M2 ⟨2, 7, -3, 1, 4⟩))) :=
  ⟨rfl, gather_boost_terms_antisymmetric 3 4 ⟨2, 1, 5, 0, 9⟩ ⟨2, 7, -3, 1, 4⟩ rfl⟩

/-- Claim C3: for every gathered cell with nonzero density, the energy
correction applied together with the momentum boost leaves the internal
energy `E - (M1^2+M2^2+M3^2)/(2*d)` exactly invariant under the frame
boost, on both the inbound and the outbound face. -/
theorem gather_internal_energy_invariant (Omega Lx : ℚ) (g : Gas)
    (hd : g.d ≠ 0) :
    internalEnergy (ix1Gather Omega Lx g) = internalEnergy g ∧
    internalEnergy (ox1Gather Omega Lx g) = internalEnergy g := by
  constructor
  · simp only [internalEnergy, ix1Gather, SQR]
    field_simp
    ring
  · simp only [internalEnergy, ox1Gather, SQR]
    field_simp
    ring

/-- Witness for claim C3 at a concrete cell of density 2. -/
theorem gather_internal_energy_invariant_witness :
    (Gas.d ⟨2, 1, 5, 0, 9⟩ ≠ 0) ∧
    (internalEnergy (ix1Gather 3 4 ⟨2, 1, 5, 0, 9⟩) =
       internalEnergy ⟨2, 1, 5, 0, 9⟩ ∧
     internalEnergy (ox1Gather 3 4 ⟨2, 1, 5, 0, 9⟩) =
       internalEnergy ⟨2, 1, 5, 0, 9⟩) :=
  ⟨by norm_num, gather_internal_energy_invariant 3 4 ⟨2, 1, 5, 0, 9⟩ (by norm_num)⟩

/-- Index wrap of the ix1 gather loop of `shear_ix1_ox1` (hgb.c):
`j_remap = j - j_offset; if (j_remap < js) j_remap += pG->Nx2;`. -/
def jRemapIx1 (js Nx2 joff j : ℤ) : ℤ :=
  if j - joff < js then j - joff + Nx2 else j - joff

/-- Index wrap of the ox1 gather loop of `shear_ix1_ox1` (hgb.c):
`j_remap = j + j_offset; if (j_remap > je) j_remap -= pG->Nx2;`. -/
def jRemapOx1 (je Nx2 joff j : ℤ) : ℤ :=
  if je < j + joff then j + joff - Nx2 else j + joff

/-- Claim C10: given an integer offset `j_offset` in `[0, Nx2]` (with
`Nx2 = je - js + 1` the orbital extent), the single conditional wrap in each
gather loop places `j_remap` in the valid orbital range `[js, je]` for every
`j` in `[js, je]`, so every orbital-index read of `pG->U` during gathering
is in range. -/
theorem gather_index_wrap_in_range (js je Nx2 joff j : ℤ)
    (hN : Nx2 = je - js + 1) (h0 : 0 ≤ joff) (h1 : joff ≤ Nx2)
    (hj1 : js ≤ j) (hj2 : j ≤ je) :
    (js ≤ jRemapIx1 js Nx2 joff j ∧ jRemapIx1 js Nx2 joff j ≤ je) ∧
    (js ≤ jRemapOx1 je Nx2 joff j ∧ jRemapOx1 je Nx2 joff j ≤ je) := by
  unfold jRemapIx1 jRemapOx1
  split_ifs <;> omega

/-- Witness for claim C10 at `js = 0`, `je = 7`, `Nx2 = 8`, `j_offset = 8`,
`j = 3` (the edge case where the offset equals the full orbital extent). -/
theorem gather_index_wrap_in_range_witness :
    (8 : ℤ) = 7 - 0 + 1 ∧ (0 : ℤ) ≤ 8 ∧ (8 : ℤ) ≤ 8 ∧ (0 : ℤ) ≤ 3 ∧ (3 : ℤ) ≤ 7 ∧
    ((0 ≤ jRemapIx1 0 8 8 3 ∧ jRemapIx1 0 8 8 3 ≤ 7) ∧
     (0 ≤ jRemapOx1 7 8 8 3 ∧ jRemapOx1 7 8 8 3 ≤ 7)) :=
  ⟨by decide, by decide, by decide, by decide, by decide,
   gather_index_wrap_in_range 0 7 8 8 3 (by decide) (by decide) (by decide)
     (by decide) (by decide)⟩

/-- The grid geometry, time and global parameters used by `shear_ix1_ox1`:
the `Grid` fields `is, ie, js, je, ks, ke, Nx2, time, dx2`, the global shear
parameter `Omega` and the hgb.c statics `Lx, Ly`, and the ghost-zone depth
constant `nghost`. -/
structure ShearParams where
  is : ℤ
  ie : ℤ
  js : ℤ
  je : ℤ
  ks : ℤ
  ke : ℤ
  Nx2 : ℤ
  nghost : ℤ
  time : ℚ
  dx2 : ℚ
  Omega : ℚ
  Lx : ℚ
  Ly : ℚ

/-- The conserved-state array `pG->U`, indexed `(k, j, i)`. -/
abbrev ShearState : Type := ℤ × ℤ × ℤ → Gas

/-- One k-slice of the ix1 (inbound) remap pass of `shear_ix1_ox1` (hgb.c):
gather the pencil from the ox1 side of `σ` (cells `[k][j_remap][ie-nghost+1+i]`)
with the integer-offset wrap and the inbound frame boost, apply orbital
periodic padding (`RemapGas[i][js-jj] = RemapGas[i][je+1-jj]`,
`RemapGas[i][je+jj] = RemapGas[i][js+jj-1]`, modelled as a total extension of
those two formulas), compute the remap flux of each ghost layer `i` with
`eps = epsi`, and write `RemapGas[i][j] - (Flx[j+1] - Flx[j])` into the ix1
ghost zones `pG->U[k][j][is-nghost+i]` for `j` in `[js, je]` and `i` in
`[0, nghost-1]`.  `Flx0` is the prior content of the static flux scratch
array (never read at the interfaces used here). -/
def shearIx1Slice (P : ShearParams) (Flx0 : ℤ → Gas) (σ : ShearState)
    (k : ℤ) : ShearState :=
  let joff := jOffsetOf P.time P.Omega P.Lx P.Ly P.dx2
  let epsi := epsiOf P.time P.Omega P.Lx P.Ly P.dx2
  let gather : ℤ → ℤ → Gas := fun i j =>
    ix1Gather P.Omega P.Lx
      (σ (k, jRemapIx1 P.js P.Nx2 joff j, P.ie - P.nghost + 1 + i))
  let Remap : ℤ → ℤ → Gas := fun i j =>
    if j < P.js then gather i (j + (P.je + 1 - P.js))
    else if P.je < j then gather i (j - (P.je + 1 - P.js))
    else gather i j
  let Flx : ℤ → ℤ → Gas := fun i =>
    CompRemapFluxGas2 (Remap i) epsi P.js (P.je + 1) Flx0
  writeAll (fun p : ℤ × ℤ => (k, p.2, P.is - P.nghost + p.1))
    (fun p : ℤ × ℤ =>
      gasSub (Remap p.1 p.2) (gasSub (Flx p.1 (p.2 + 1)) (Flx p.1 p.2)))
    ((intRange 0 (P.nghost - 1)) ×ˢ (intRange P.js P.je)) σ

/-- One k-slice of the ox1 (outbound) remap pass of `shear_ix1_ox1` (hgb.c):
gather the pencil from the ix1 side of `σ` (cells `[k][j_remap][is+i]`) with
the integer-offset wrap and the outbound frame boost, apply the same orbital
periodic padding, compute the remap flux with `eps = epso = -epsi`, and
write into the ox1 ghost zones `pG->U[k][j][ie+1+i]`. -/
def shearOx1Slice (P : ShearParams) (Flx0 : ℤ → Gas) (σ : ShearState)
    (k : ℤ) : ShearState :=
  let joff := jOffsetOf P.time P.Omega P.Lx P.Ly P.dx2
  let epso := -epsiOf P.time P.Omega P.Lx P.Ly P.dx2
  let gather : ℤ → ℤ → Gas := fun i j =>
    ox1Gather P.Omega P.Lx (σ (k, jRemapOx1 P.je P.Nx2 joff j, P.is + i))
  let Remap : ℤ → ℤ → Gas := fun i j =>
    if j < P.js then gather i (j + (P.je + 1 - P.js))
    else if P.je < j then gather i (j - (P.je + 1 - P.js))
    else gather i j
  let Flx : ℤ → ℤ → Gas := fun i =>
    CompRemapFluxGas2 (Remap i) epso P.js (P.je + 1) Flx0
  writeAll (fun p : ℤ × ℤ => (k, p.2, P.ie + 1 + p.1))
    (fun p : ℤ × ℤ =>
      gasSub (Remap p.1 p.2) (gasSub (Flx p.1 (p.2 + 1)) (Flx p.1 p.2)))
    ((intRange 0 (P.nghost - 1)) ×ˢ (intRange P.js P.je)) σ

/-- The shearing-sheet boundary exchange `shear_ix1_ox1(Grid, var_flag)` of
hgb.c (SECOND_ORDER build): a no-op when `var_flag = 1` (the self-gravity
potential class), otherwise the full ix1 remap pass over all k-slices
followed by the full ox1 remap pass. -/
def shear_ix1_ox1 (P : ShearParams) (Flx0 : ℤ → Gas) (var_flag : ℤ)
    (σ : ShearState) : ShearState :=
  if var_flag = 1 then σ
  else
    (intRange P.ks P.ke).foldl (shearOx1Slice P Flx0)
      ((intRange P.ks P.ke).foldl (shearIx1Slice P Flx0) σ)

theorem shearIx1Slice_preserves_interior (P : ShearParams) (Flx0 : ℤ → Gas)
    (s : ShearState) (kk k j i : ℤ) (h : P.is ≤ i) :
    shearIx1Slice P Flx0 s kk (k, j, i) = s (k, j, i) := by
  unfold shearIx1Slice
  apply writeAll_ne
  rintro ⟨pi, pj⟩ hp heq
  rw [List.mem_product] at hp
  have h1 := (mem_intRange.mp hp.1).2
  rw [Prod.ext_iff, Prod.ext_iff] at heq
  obtain ⟨-, -, hi⟩ := heq
  simp only at hi
  omega

theorem shearOx1Slice_preserves_interior (P : ShearParams) (Flx0 : ℤ → Gas)
    (s : ShearState) (kk k j i : ℤ) (h : i ≤ P.ie) :
    shearOx1Slice P Flx0 s kk (k, j, i) = s (k, j, i) := by
  unfold shearOx1Slice
  apply writeAll_ne
  rintro ⟨pi, pj⟩ hp heq
  rw [List.mem_product] at hp
  have h1 := (mem_intRange.mp hp.1).1
  rw [Prod.ext_iff, Prod.ext_iff] at heq
  obtain ⟨-, -, hi⟩ := heq
  simp only at hi
  omega

/-- Claim C7: for every grid and every `var_flag`, `shear_ix1_ox1` writes
the conserved-state array only at x1 ghost-zone indices
(`i ∈ [is-nghost, is-1]` on the inbound face, `i ∈ [ie+1, ie+nghost]` on the
outbound face); every interior cell (`is ≤ i ≤ ie`) holds its pre-call value
after the exchange. -/
theorem shear_interior_cells_untouched (P : ShearParams) (Flx0 : ℤ → Gas)
    (var_flag : ℤ) (σ : ShearState) (k j i : ℤ)
    (h1 : P.is ≤ i) (h2 : i ≤ P.ie) :
    shear_ix1_ox1 P Flx0 var_flag σ (k, j, i) = σ (k, j, i) := by
  unfold shear_ix1_ox1
  by_cases hv : var_flag = 1
  · rw [if_pos hv]
  · rw [if_neg hv]
    rw [foldl_preserve (shearOx1Slice P Flx0) (fun s => s (k, j, i))
      (fun s kk => shearOx1Slice_preserves_interior P Flx0 s kk k j i h2)]
    exact foldl_preserve (shearIx1Slice P Flx0) (fun s => s (k, j, i))
      (fun s kk => shearIx1Slice_preserves_interior P Flx0 s kk k j i h1) _ σ

/-- Witness for claim C7 on a concrete 2x2x1 grid with ghost depth 2. -/
theorem shear_interior_cells_untouched_witness :
    (ShearParams.mk 0 1 0 1 0 0 2 2 0 1 1 1 2).is ≤ 0 ∧
    (0 : ℤ) ≤ (ShearParams.mk 0 1 0 1 0 0 2 2 0 1 1 1 2).ie ∧
    shear_ix1_ox1 (ShearParams.mk 0 1 0 1 0 0 2 2 0 1 1 1 2)
        (fun _ => gasZero) 0 (fun _ => ⟨1, 2, 3, 4, 5⟩) (0, 0, 0) =
      (fun _ : ℤ × ℤ × ℤ => (⟨1, 2, 3, 4, 5⟩ : Gas)) (0, 0, 0) :=
  ⟨by decide, by decide,
   shear_interior_cells_untouched (ShearParams.mk 0 1 0 1 0 0 2 2 0 1 1 1 2)
     (fun _ => gasZero) 0 (fun _ => ⟨1, 2, 3, 4, 5⟩) 0 0 0 (by decide) (by decide)⟩
